import Mathlib

/-!
Verification of the minesweeper inference engine
(src/Project 1/minesweeper/minesweeper.py) against its design document.

The embedding mirrors the Python source closely:

* a `Sentence` is a pair of a finite cell set and an integer count
  (Python: class Sentence, lines 87-145);
* the AI state (class MinesweeperAI, lines 148-354) holds the board
  dimensions, the three cell sets `moves_made`, `mines`, `safes`, and the
  knowledge list.  Python stores mutable Sentence objects in a list and
  mutates them in place through aliases, so the state carries a `heap` of
  allocated sentence objects (identified by an allocation id) and
  `knowledge` is the list of ids: in-place mutation is a map over the heap
  restricted to ids currently in the knowledge list, Python's
  `list.remove(x)` removes the first value-equal entry, and `x in list`
  compares by value (Sentence.__eq__, line 98).
* Python for-loops over `self.knowledge` advance an index over the
  current list, so removals made during iteration shift later elements
  under the iterator; the loops below are index loops reproducing that.
* The mutually recursive inner procedures `check_knowledge` and
  `check_and_add_sentence` of `add_knowledge` are modelled with an explicit
  fuel parameter; `none` means the fuel ran out.  Python set iteration
  order (for `for cell in mines:` etc.) is unspecified; here the cells are
  visited in lexicographic order, which is immaterial because the marking
  operations for distinct cells commute.
-/

/-- A board cell, a (row, column) pair of integers (Python tuples). -/
abbrev Cell : Type := ℤ × ℤ

/-- Python: class Sentence (minesweeper.py line 87): a set of board cells
and a count of the number of those cells which are mines.  Value equality
is Sentence.__eq__ (line 98): same cells and same count. -/
structure Sentence where
  cells : Finset Cell
  count : ℤ
deriving DecidableEq

/-- Sentence.__init__ (lines 94-96): stores `set(cells)` and `count`
unchanged; there is no validation of the pair. -/
def Sentence.init (cs : List Cell) (count : ℤ) : Sentence :=
  ⟨cs.toFinset, count⟩

/-- Sentence.known_mines (lines 104-115): if the number of cells equals the
count, all cells are mines and the cell set is returned; the `elif count ==
0` branch and the implicit fall-through both return None. -/
def Sentence.known_mines (s : Sentence) : Option (Finset Cell) :=
  if (s.cells.card : ℤ) = s.count then some s.cells else none

/-- Sentence.known_safes (lines 117-124): if the count is 0 all cells are
safe and the cell set is returned, else None. -/
def Sentence.known_safes (s : Sentence) : Option (Finset Cell) :=
  if s.count = 0 then some s.cells else none

/-- Sentence.mark_mine (lines 126-135): if the cell is in the sentence,
remove it and decrement the count; otherwise do nothing. -/
def Sentence.mark_mine (s : Sentence) (c : Cell) : Sentence :=
  if c ∈ s.cells then ⟨s.cells.erase c, s.count - 1⟩ else s

/-- Sentence.mark_safe (lines 137-145): if the cell is in the sentence,
remove it; otherwise do nothing.  The count is unchanged. -/
def Sentence.mark_safe (s : Sentence) (c : Cell) : Sentence :=
  if c ∈ s.cells then ⟨s.cells.erase c, s.count⟩ else s

/-- A sentence object on the heap: an allocation id plus its current
value.  Python mutates Sentence objects in place through the knowledge
list; removing an object from the list freezes its value. -/
structure SObj where
  sid : ℕ
  val : Sentence
deriving DecidableEq

/-- The state of class MinesweeperAI (lines 148-167): board dimensions,
the sets `moves_made`, `mines`, `safes`, and the knowledge list.  `heap`
holds every Sentence object ever stored in the list (ids are allocated
sequentially as `heap.length`); `knowledge` is the Python list of object
references, as ids. -/
structure AIState where
  height : ℤ
  width : ℤ
  moves_made : Finset Cell
  mines : Finset Cell
  safes : Finset Cell
  heap : List SObj
  knowledge : List ℕ
deriving DecidableEq

/-- MinesweeperAI.__init__ (lines 153-167). -/
def initAI (height width : ℤ) : AIState :=
  ⟨height, width, ∅, ∅, ∅, [], []⟩

/-- The current value of the sentence object with allocation id `i`.  Ids
are allocated uniquely, so `find?` retrieves the object; the default is
never reached on states built by the operations below. -/
def heapVal (st : AIState) (i : ℕ) : Sentence :=
  match st.heap.find? (fun p => p.sid == i) with
  | some p => p.val
  | none => ⟨∅, 0⟩

/-- The values of the sentences currently in the knowledge list, in list
order. -/
def knowledgeVals (st : AIState) : List Sentence :=
  st.knowledge.map (heapVal st)

/-- In-place mutation of every sentence object currently in the knowledge
list (Python: `for sentence in self.knowledge: sentence.mark_...(cell)`).
Objects on the heap that are no longer in the list keep their value. -/
def mutateStored (st : AIState) (f : Sentence → Sentence) : AIState :=
  { st with heap := st.heap.map fun p =>
      if st.knowledge.contains p.sid then ⟨p.sid, f p.val⟩ else p }

/-- MinesweeperAI.mark_mine (lines 169-176): add the cell to `mines`, then
apply Sentence.mark_mine to every sentence in the knowledge list. -/
def AIState.mark_mine (st : AIState) (c : Cell) : AIState :=
  mutateStored { st with mines := insert c st.mines } (fun s => s.mark_mine c)

/-- MinesweeperAI.mark_safe (lines 178-185): add the cell to `safes`, then
apply Sentence.mark_safe to every sentence in the knowledge list. -/
def AIState.mark_safe (st : AIState) (c : Cell) : AIState :=
  mutateStored { st with safes := insert c st.safes } (fun s => s.mark_safe c)

/-- Lexicographic order on cells, used to fix an iteration order for
Python's unordered set iteration.  The marking operations for distinct
cells commute, so the choice of order does not affect the final state. -/
def cellLe (a b : Cell) : Prop :=
  a.1 < b.1 ∨ (a.1 = b.1 ∧ a.2 ≤ b.2)

instance : DecidableRel cellLe := fun a b =>
  decidable_of_iff (a.1 < b.1 ∨ (a.1 = b.1 ∧ a.2 ≤ b.2)) Iff.rfl

instance : IsTrans Cell cellLe :=
  ⟨fun a b c h₁ h₂ => by unfold cellLe at *; omega⟩

instance : IsAntisymm Cell cellLe :=
  ⟨fun a b h₁ h₂ => by
    obtain ⟨a₁, a₂⟩ := a
    obtain ⟨b₁, b₂⟩ := b
    unfold cellLe at *
    simp only [Prod.mk.injEq]
    constructor <;> omega⟩

instance : IsTotal Cell cellLe :=
  ⟨fun a b => by unfold cellLe; omega⟩

/-- The cells of a finite set in lexicographic order.  Insertion sort is
invariant under permutation of its input, so it lifts to the multiset. -/
def sortCells (cs : Finset Cell) : List Cell :=
  Quotient.lift (List.insertionSort cellLe)
    (fun l₁ l₂ h =>
      List.eq_of_perm_of_sorted
        ((List.perm_insertionSort cellLe l₁).trans
          ((h : List.Perm l₁ l₂).trans (List.perm_insertionSort cellLe l₂).symm))
        (List.sorted_insertionSort cellLe l₁)
        (List.sorted_insertionSort cellLe l₂)) cs.val

/-- Python: `for cell in mines: self.mark_mine(cell)` (lines 228-229). -/
def markCellsMine (st : AIState) (cs : Finset Cell) : AIState :=
  (sortCells cs).foldl AIState.mark_mine st

/-- Python: `for cell in safes: self.mark_safe(cell)` (lines 230-231). -/
def markCellsSafe (st : AIState) (cs : Finset Cell) : AIState :=
  (sortCells cs).foldl AIState.mark_safe st

/-- Python `list.remove(x)` on the knowledge list: remove the first entry
whose current value equals the given sentence (Sentence.__eq__ is value
equality). -/
def removeFirstVal (st : AIState) : List ℕ → Sentence → List ℕ
  | [], _ => []
  | i :: t, v => if heapVal st i = v then t else i :: removeFirstVal st t v

/-- One traversal of the for-loop of check_knowledge (lines 210-223):
iterate an index over the current knowledge list; remove empty sentences
(shifting later entries under the iterator, exactly as Python's iterator
does); collect the cells of every sentence whose known_mines or
known_safes is non-None into the local `mines` / `safes` sets, setting the
update flag.  The heap is not mutated during the traversal.  The fuel
bounds the number of iterations; the caller passes more fuel than the
list length, so `none` is unreachable there. -/
def check_pass (st : AIState) :
    ℕ → ℕ → List ℕ → Bool → Finset Cell → Finset Cell →
    Option (List ℕ × Bool × Finset Cell × Finset Cell)
  | 0, _, _, _, _, _ => none
  | fuel+1, i, kn, upd, ms, ss =>
    if h : i < kn.length then
      let s := heapVal st (kn.get ⟨i, h⟩)
      if s.cells = ∅ then
        check_pass st fuel (i+1) (removeFirstVal st kn s) upd ms ss
      else
        let p₁ : Bool × Finset Cell :=
          match s.known_mines with
          | some cs => (true, ms ∪ cs)
          | none => (upd, ms)
        let p₂ : Bool × Finset Cell :=
          match s.known_safes with
          | some cs => (true, ss ∪ cs)
          | none => (p₁.1, ss)
        check_pass st fuel (i+1) kn p₂.1 p₁.2 p₂.2
    else some (kn, upd, ms, ss)

/-- check_knowledge (lines 204-232), the settle / fixpoint-propagation
pass: traverse the knowledge list removing empty sentences and collecting
the implied mine and safe cells; if anything was found, mark all collected
mines, then all collected safes, and run again. -/
def check_knowledge : ℕ → AIState → Option AIState
  | 0, _ => none
  | fuel+1, st =>
    match check_pass st (st.knowledge.length + 1) 0 st.knowledge false ∅ ∅ with
    | none => none
    | some (kn, upd, ms, ss) =>
      let st₁ := { st with knowledge := kn }
      if upd then
        check_knowledge fuel (markCellsSafe (markCellsMine st₁ ms) ss)
      else some st₁

/-- The subset test and difference of the resolution loop (lines 268-277):
if `info`'s cells are a subset of the new sentence's cells, the difference
is new minus info with the counts subtracted, else if the new sentence's
cells are a subset of `info`'s, symmetrically; otherwise nothing. -/
def subsetDiff (sentence info : Sentence) : Option Sentence :=
  if info.cells ⊆ sentence.cells then
    some ⟨sentence.cells \ info.cells, sentence.count - info.count⟩
  else if sentence.cells ⊆ info.cells then
    some ⟨info.cells \ sentence.cells, info.count - sentence.count⟩
  else none

mutual

/-- check_and_add_sentence (lines 234-283): settle first; discard the
candidate if it is value-equal to a stored sentence or empty; if it is
all-mines (or all-safes) mark those cells and return without storing;
otherwise append it to the knowledge list and run the subset-resolution
loop over the list. -/
def check_and_add_sentence : ℕ → AIState → Sentence → Option AIState
  | 0, _, _ => none
  | fuel+1, st, s =>
    match check_knowledge (fuel+1) st with
    | none => none
    | some st₁ =>
      if s ∈ knowledgeVals st₁ then some st₁
      else if s.cells = ∅ then some st₁
      else
        match s.known_mines with
        | some cs => some (markCellsMine st₁ cs)
        | none =>
          match s.known_safes with
          | some cs => some (markCellsSafe st₁ cs)
          | none =>
            let sid := st₁.heap.length
            let st₂ := { st₁ with heap := st₁.heap ++ [⟨sid, s⟩],
                                  knowledge := st₁.knowledge ++ [sid] }
            resolve_loop fuel 0 st₂ sid

/-- The for-loop over `self.knowledge` of check_and_add_sentence (lines
260-283): an index loop over the current list (recursive calls may remove
entries and append new ones, and Python's iterator sees both).  `sid` is
the id of the sentence object appended by the enclosing call; its CURRENT
value is read at each iteration, since recursive calls mutate it in place
through the list.  Empty entries are removed (the iterator then skips the
entry that slides into their place, as in Python); otherwise the subset
difference with the new sentence, when defined, is fed recursively to
check_and_add_sentence. -/
def resolve_loop : ℕ → ℕ → AIState → ℕ → Option AIState
  | 0, _, _, _ => none
  | fuel+1, i, st, sid =>
    if h : i < st.knowledge.length then
      let info := heapVal st (st.knowledge.get ⟨i, h⟩)
      if info.cells = ∅ then
        resolve_loop fuel (i+1)
          { st with knowledge := removeFirstVal st st.knowledge info } sid
      else
        match subsetDiff (heapVal st sid) info with
        | some d =>
          match check_and_add_sentence fuel st d with
          | none => none
          | some st' => resolve_loop fuel (i+1) st' sid
        | none => resolve_loop fuel (i+1) st sid
    else some st

end

/-- The row-major 3x3 neighbourhood scan order of add_knowledge
(lines 293-294). -/
def neighbor_cells (cell : Cell) : List Cell :=
  [(cell.1 - 1, cell.2 - 1), (cell.1 - 1, cell.2), (cell.1 - 1, cell.2 + 1),
   (cell.1, cell.2 - 1), (cell.1, cell.2), (cell.1, cell.2 + 1),
   (cell.1 + 1, cell.2 - 1), (cell.1 + 1, cell.2), (cell.1 + 1, cell.2 + 1)]

/-- The body of the neighbourhood loop of add_knowledge (lines 293-310):
skip the cell itself; skip out-of-index cells, where the source compares
the row against `self.width` and the column against `self.height` (line
300, as written there); skip known safe cells; skip known mines while
decrementing the count; otherwise add the cell to the new set. -/
def neighbor_fold (st : AIState) (cell : Cell) (acc : Finset Cell × ℤ)
    (rc : Cell) : Finset Cell × ℤ :=
  if rc = cell then acc
  else if rc.1 < 0 ∨ st.width ≤ rc.1 ∨ rc.2 < 0 ∨ st.height ≤ rc.2 then acc
  else if rc ∈ st.safes then acc
  else if rc ∈ st.mines then (acc.1, acc.2 - 1)
  else (insert rc acc.1, acc.2)

/-- A canonical, order-normalised view of an AI state, used to state
concrete executions: the three cell sets and every stored cell set are
listed in lexicographic order. -/
structure StateDump where
  height : ℤ
  width : ℤ
  moves_made : List Cell
  mines : List Cell
  safes : List Cell
  heap : List (ℕ × List Cell × ℤ)
  knowledge : List ℕ
deriving DecidableEq

/-- Dump an AI state to its canonical view. -/
def dumpState (st : AIState) : StateDump :=
  ⟨st.height, st.width, sortCells st.moves_made, sortCells st.mines,
   sortCells st.safes,
   st.heap.map (fun p => (p.sid, sortCells p.val.cells, p.val.count)),
   st.knowledge⟩

/-- add_knowledge (lines 187-312): record the move, add the cell to
`safes` directly (line 288 adds to the set without touching the stored
sentences), build the neighbour sentence, and hand it to
check_and_add_sentence. -/
def add_knowledge (fuel : ℕ) (st : AIState) (cell : Cell) (count : ℤ) :
    Option AIState :=
  let st₁ := { st with moves_made := insert cell st.moves_made,
                       safes := insert cell st.safes }
  let nb := (neighbor_cells cell).foldl (neighbor_fold st₁ cell) (∅, count)
  check_and_add_sentence fuel st₁ ⟨nb.1, nb.2⟩

mutual

/-- The add-constraint operation as the design document words it, step 6:
identical to check_and_add_sentence except that the resolution loop visits
only every OTHER active constraint, never the newly stored sentence object
itself.  This second definition exists solely to compare the source
behaviour with the documented one. -/
def check_and_add_spec : ℕ → AIState → Sentence → Option AIState
  | 0, _, _ => none
  | fuel+1, st, s =>
    match check_knowledge (fuel+1) st with
    | none => none
    | some st₁ =>
      if s ∈ knowledgeVals st₁ then some st₁
      else if s.cells = ∅ then some st₁
      else
        match s.known_mines with
        | some cs => some (markCellsMine st₁ cs)
        | none =>
          match s.known_safes with
          | some cs => some (markCellsSafe st₁ cs)
          | none =>
            let sid := st₁.heap.length
            let st₂ := { st₁ with heap := st₁.heap ++ [⟨sid, s⟩],
                                  knowledge := st₁.knowledge ++ [sid] }
            resolve_loop_spec fuel 0 st₂ sid

/-- The resolution loop as the design document words it: the iteration
that reaches the stored sentence object itself (the entry with id `sid`)
is skipped; everything else is as in resolve_loop. -/
def resolve_loop_spec : ℕ → ℕ → AIState → ℕ → Option AIState
  | 0, _, _, _ => none
  | fuel+1, i, st, sid =>
    if h : i < st.knowledge.length then
      if st.knowledge.get ⟨i, h⟩ = sid then
        resolve_loop_spec fuel (i+1) st sid
      else
        let info := heapVal st (st.knowledge.get ⟨i, h⟩)
        if info.cells = ∅ then
          resolve_loop_spec fuel (i+1)
            { st with knowledge := removeFirstVal st st.knowledge info } sid
        else
          match subsetDiff (heapVal st sid) info with
          | some d =>
            match check_and_add_spec fuel st d with
            | none => none
            | some st' => resolve_loop_spec fuel (i+1) st' sid
          | none => resolve_loop_spec fuel (i+1) st sid
    else some st

end

/-- Componentwise inclusion of the three monotone sets of the AI state. -/
def stateLe (s t : AIState) : Prop :=
  s.mines ⊆ t.mines ∧ s.safes ⊆ t.safes ∧ s.moves_made ⊆ t.moves_made

/-- The state reached on a 3x3 board after add_knowledge((0,0), 1) from a
fresh AI (checked below): one stored sentence over (0,0)'s neighbours. -/
def c1mid : AIState :=
  ⟨3, 3, {(0, 0)}, ∅, {(0, 0)}, [⟨0, ⟨{(0, 1), (1, 0), (1, 1)}, 1⟩⟩], [0]⟩

/-- The state reached on a 2x2 board after add_knowledge((0,0), 1) from a
fresh AI (checked below). -/
def c6mid : AIState :=
  ⟨2, 2, {(0, 0)}, ∅, {(0, 0)}, [⟨0, ⟨{(0, 1), (1, 0), (1, 1)}, 1⟩⟩], [0]⟩

/-- A knowledge base holding {(1,1)} = 1 ahead of {(1,1),(1,2)} = 1: no
empty constraint, every constraint well-formed.  Settling it marks (1,1)
as a mine, which empties the first sentence and turns the second into
{(1,2)} = 0; the next pass removes the empty entry and thereby skips the
count-0 one, which survives. -/
def c4bad : AIState :=
  { initAI 8 8 with heap := [⟨0, ⟨{(1, 1)}, 1⟩⟩, ⟨1, ⟨{(1, 1), (1, 2)}, 1⟩⟩],
                    knowledge := [0, 1] }

/-- A knowledge base holding only the sentence {(1,1),(1,2)} = 2. -/
def c4scenario : AIState :=
  { initAI 8 8 with heap := [⟨0, ⟨{(1, 1), (1, 2)}, 2⟩⟩], knowledge := [0] }

/-- A knowledge base holding only {(0,0),(0,1),(0,2)} = 1, the resolution
scenario of the design document. -/
def c3st : AIState :=
  { initAI 8 8 with heap := [⟨0, ⟨{(0, 0), (0, 1), (0, 2)}, 1⟩⟩],
                    knowledge := [0] }

/-- A knowledge base holding {(0,0),(0,1),(0,2),(0,3)} = 3 and
{(0,2),(0,3),(0,4)} = 2; adding {(0,0),(0,1)} = 1 to it makes the
self-comparison iteration of the resolution loop observable. -/
def c7st : AIState :=
  { initAI 8 8 with
    heap := [⟨0, ⟨{(0, 0), (0, 1), (0, 2), (0, 3)}, 3⟩⟩,
             ⟨1, ⟨{(0, 2), (0, 3), (0, 4)}, 2⟩⟩],
    knowledge := [0, 1] }

/-- A knowledge base holding only {(0,0),(1,1)} = 1, used to exercise the
duplicate-discarding entry check. -/
def cdupst : AIState :=
  { initAI 2 2 with heap := [⟨0, ⟨{(0, 0), (1, 1)}, 1⟩⟩], knowledge := [0] }

/-- The four-cell set of the diverging knowledge base. -/
def cellsA : Finset Cell := {(0, 0), (0, 1), (0, 2), (0, 3)}

/-- cellsA minus (0,0). -/
def cellsB : Finset Cell := {(0, 1), (0, 2), (0, 3)}

/-- The single cell (0,0). -/
def cellsC : Finset Cell := {(0, 0)}

/-- The j-th sentence value stored by the diverging run of
check_and_add_sentence on the knowledge base [cellsA = 3, cellsA = 1]
with candidate cellsB = 1: positions 0 and 1 hold the two contradictory
initial constraints, and from then on the run alternates between
cellsB = 3 - j (even positions) and cellsC = j - 1 (odd positions),
forever.  No cell is ever marked, so the knowledge list only grows. -/
def vseq (j : ℕ) : Sentence :=
  if j = 0 then ⟨cellsA, 3⟩
  else if j = 1 then ⟨cellsA, 1⟩
  else if j % 2 = 0 then ⟨cellsB, 3 - (j : ℤ)⟩
  else ⟨cellsC, (j : ℤ) - 1⟩

/-- The heap of the diverging run after n sentences have been stored:
object j holds vseq j. -/
def c5heap (n : ℕ) : List SObj :=
  (List.range n).map fun j => ⟨j, vseq j⟩

/-- The AI state of the diverging run after n sentences have been stored.
c5st 2 is the initial knowledge base: the two well-formed but mutually
contradictory constraints cellsA = 3 and cellsA = 1, nothing marked. -/
def c5st (n : ℕ) : AIState :=
  ⟨8, 8, ∅, ∅, ∅, c5heap n, List.range n⟩

/-- The sorted cell list of a finite set carries the same multiset. -/
theorem sortCells_val (cs : Finset Cell) :
    (↑(sortCells cs) : Multiset Cell) = cs.val := by
  unfold sortCells
  induction cs.val using Quotient.inductionOn with
  | h l => exact Quotient.sound (List.perm_insertionSort cellLe l)

/-- Two finite cell sets with the same sorted list are equal. -/
theorem sortCells_injective {a b : Finset Cell} (h : sortCells a = sortCells b) :
    a = b :=
  Finset.val_injective (by rw [← sortCells_val a, ← sortCells_val b, h])

/-- A sentence whose canonical view is ([(1,0),(1,1)], 1) is the sentence
{(1,0),(1,1)} = 1. -/
theorem sentence_of_dup_view (s : Sentence)
    (heq : (sortCells s.cells, s.count) =
      ([((1 : ℤ), (0 : ℤ)), ((1 : ℤ), (1 : ℤ))], (1 : ℤ))) :
    s = ⟨{(1, 0), (1, 1)}, 1⟩ := by
  obtain ⟨c, n⟩ := s
  simp only [Prod.mk.injEq] at heq
  have hc : c = ({((1 : ℤ), (0 : ℤ)), ((1 : ℤ), (1 : ℤ))} : Finset Cell) := by
    apply sortCells_injective
    rw [heq.1]
    decide
  simp [hc, heq.2]

/-- C1: the claimed soundness invariant (no cell of an active constraint
is in mines or safes, confirmed cells being removed immediately) fails on
the code because add_knowledge (line 288) adds the revealed cell to
`safes` directly instead of going through mark_safe: on a fresh 3x3 AI,
after add_knowledge((0,0), 1) — whose resulting state is pinned by the
first conjunct — the call add_knowledge((1,1), 2) leaves (1,1) both in
`safes` and inside the stored constraint {(0,1),(1,0),(1,1)} = 1. -/
theorem c1_safe_cell_left_in_constraint :
    (add_knowledge 40 (initAI 3 3) (0, 0) 1).map dumpState =
      some ⟨3, 3, [(0, 0)], [], [(0, 0)],
            [(0, [(0, 1), (1, 0), (1, 1)], 1)], [0]⟩
    ∧ ((add_knowledge 40 c1mid (1, 1) 2).map fun st =>
        decide (((1 : ℤ), (1 : ℤ)) ∈ st.safes) &&
          (knowledgeVals st).any fun s =>
            decide (((1 : ℤ), (1 : ℤ)) ∈ s.cells)) = some true :=
  ⟨by decide, by decide⟩

/-- C2: the neighbour bound check of add_knowledge (line 300) compares the
row against `width` and the column against `height`.  On a board with
height 2 and width 3, observing (1,1) with count 0 therefore marks the
off-board cells (2,0) and (2,1) safe while the on-board cells (0,2) and
(1,2) are never marked; the claimed semantics (row bounded by height,
column bounded by width) would mark exactly the on-board neighbours.  On
the square 8x8 board of the claim's scenario the two checks coincide and
(0,1), (1,0), (1,1) are marked safe as stated. -/
theorem c2_swapped_bounds_eval :
    ((add_knowledge 40 (initAI 2 3) (1, 1) 0).map fun st =>
      decide (((2 : ℤ), (0 : ℤ)) ∈ st.safes ∧ ((2 : ℤ), (1 : ℤ)) ∈ st.safes ∧
        ((0 : ℤ), (2 : ℤ)) ∉ st.safes ∧ ((1 : ℤ), (2 : ℤ)) ∉ st.safes)) = some true
    ∧ ((add_knowledge 40 (initAI 8 8) (0, 0) 0).map fun st =>
      decide (((0 : ℤ), (1 : ℤ)) ∈ st.safes ∧ ((1 : ℤ), (0 : ℤ)) ∈ st.safes ∧
        ((1 : ℤ), (1 : ℤ)) ∈ st.safes)) = some true :=
  ⟨by decide, by decide⟩

set_option maxHeartbeats 1000000 in
/-- C3: subset resolution.  When one cell set is contained in the other,
the resolution step of check_and_add_sentence derives exactly the
difference constraint (first two conjuncts, one per branch of the source's
if/elif), and on the claim's scenario — knowledge {(0,0),(0,1),(0,2)} = 1,
candidate {(0,0),(0,1)} = 1 — the derived constraint {(0,2)} = 0 is added
recursively and (0,2) is marked safe. -/
theorem c3_subset_resolution :
    (∀ s i : Sentence, i.cells ⊆ s.cells →
        subsetDiff s i = some ⟨s.cells \ i.cells, s.count - i.count⟩)
    ∧ (∀ s i : Sentence, ¬ i.cells ⊆ s.cells → s.cells ⊆ i.cells →
        subsetDiff s i = some ⟨i.cells \ s.cells, i.count - s.count⟩)
    ∧ ((check_and_add_sentence 40 c3st ⟨{(0, 0), (0, 1)}, 1⟩).map fun st =>
        decide (((0 : ℤ), (2 : ℤ)) ∈ st.safes ∧ sortCells st.mines = [])) =
      some true := by
  refine ⟨?_, ?_, by decide⟩
  · intro s i h
    simp [subsetDiff, h]
  · intro s i h₁ h₂
    simp [subsetDiff, h₁, h₂]

/-- Witness for C3: both general conjuncts applied at concrete sentences. -/
theorem c3_subset_resolution_witness :
    subsetDiff ⟨{(0, 0), (0, 1), (0, 2)}, 1⟩ ⟨{(0, 0), (0, 1)}, 1⟩ =
      some ⟨{(0, 2)}, 0⟩
    ∧ subsetDiff ⟨{(0, 0)}, 0⟩ ⟨{(0, 0), (0, 5)}, 1⟩ = some ⟨{(0, 5)}, 1⟩ :=
  ⟨(c3_subset_resolution.1 ⟨{(0, 0), (0, 1), (0, 2)}, 1⟩ ⟨{(0, 0), (0, 1)}, 1⟩
      (by decide)).trans (by decide),
   (c3_subset_resolution.2.1 ⟨{(0, 0)}, 0⟩ ⟨{(0, 0), (0, 5)}, 1⟩
      (by decide) (by decide)).trans (by decide)⟩

/-- C4, counterexample: check_knowledge does not guarantee the claimed
postcondition.  On the knowledge base [{(1,1)} = 1, {(1,1),(1,2)} = 1]
(no empty constraint, both well-formed) the first pass marks (1,1) as a
mine, emptying the first sentence and turning the second into
{(1,2)} = 0; in the next pass, removing the empty entry makes the
iterator skip the count-0 entry that slides into its place, no update is
found, and settle returns with the active constraint {(1,2)} = 0 still
stored and (1,2) never marked safe. -/
theorem c4_settle_leaves_trivial_constraint :
    (check_knowledge 10 c4bad).map dumpState =
      some ⟨8, 8, [], [(1, 1)], [], [(0, [], 0), (1, [(1, 2)], 0)], [1]⟩ := by
  decide

/-- C4, amended: on the claim's own scenario — a knowledge base holding
only {(1,1),(1,2)} = 2 — check_knowledge does absorb the trivial
constraint: both cells are recorded as mines and the constraint is
removed from the knowledge list. -/
theorem c4_amended_settle_scenario :
    (check_knowledge 10 c4scenario).map dumpState =
      some ⟨8, 8, [], [(1, 1), (1, 2)], [], [(0, [], 0)], []⟩ := by
  decide

/-- C6, counterexample: on a fresh 2x2 AI, add_knowledge((0,0), 1) — whose
resulting state is pinned by the first conjunct — followed by
add_knowledge((0,1), 1) ends with the active collection holding two
value-equal constraints ({(1,0),(1,1)} = 1 twice): the first stored
sentence is mutated in place by the resolution of the second one until it
equals it. -/
theorem c6_duplicate_constraints :
    (add_knowledge 40 (initAI 2 2) (0, 0) 1).map dumpState =
      some ⟨2, 2, [(0, 0)], [], [(0, 0)],
            [(0, [(0, 1), (1, 0), (1, 1)], 1)], [0]⟩
    ∧ (add_knowledge 40 c6mid (0, 1) 1).map knowledgeVals =
        some [⟨{(1, 0), (1, 1)}, 1⟩, ⟨{(1, 0), (1, 1)}, 1⟩] := by
  refine ⟨by decide, ?_⟩
  have h1 : ((add_knowledge 40 c6mid (0, 1) 1).map fun st =>
      (knowledgeVals st).map fun s => (sortCells s.cells, s.count)) =
      some [([(1, 0), (1, 1)], 1), ([(1, 0), (1, 1)], 1)] := by decide
  cases hrun : add_knowledge 40 c6mid (0, 1) 1 with
  | none => rw [hrun] at h1; simp at h1
  | some st =>
    rw [hrun] at h1
    simp only [Option.map_some', Option.some.injEq] at h1 ⊢
    cases hkv : knowledgeVals st with
    | nil => rw [hkv] at h1; simp at h1
    | cons a t =>
      cases t with
      | nil => rw [hkv] at h1; simp at h1
      | cons b t2 =>
        cases t2 with
        | nil =>
          rw [hkv] at h1
          simp only [List.map_cons, List.map_nil, List.cons.injEq,
            and_true] at h1
          rw [sentence_of_dup_view a h1.1, sentence_of_dup_view b h1.2]
        | cons c t3 => rw [hkv] at h1; simp at h1

/-- C6, amended: the entry check of check_and_add_sentence does discard a
candidate that value-equals a constraint active after the initial settle
(the knowledge base is returned exactly as the settle left it); the
counterexample shows the discarding is only at entry, and later in-place
mutation of stored constraints can still produce value-equal entries. -/
theorem c6_amended_entry_dedup (fuel : ℕ) (st st' : AIState) (s : Sentence)
    (h : check_knowledge (fuel + 1) st = some st')
    (hmem : s ∈ knowledgeVals st') :
    check_and_add_sentence (fuel + 1) st s = some st' := by
  rw [check_and_add_sentence, h]
  simp [hmem]

/-- Witness for C6's amended theorem: adding a sentence value-equal to the
stored one leaves the knowledge base unchanged. -/
theorem c6_amended_entry_dedup_witness :
    check_and_add_sentence 1 cdupst ⟨{(0, 0), (1, 1)}, 1⟩ = some cdupst :=
  c6_amended_entry_dedup 0 cdupst cdupst ⟨{(0, 0), (1, 1)}, 1⟩
    (by decide) (by decide)

/-- C7, counterexample: the resolution loop iterates over the whole
knowledge list, which includes the just-appended sentence, so the new
sentence IS compared against itself.  The self-comparison is observable:
on c7st with candidate {(0,0),(0,1)} = 1, the first iteration marks (0,2)
and (0,3) as mines, turning the stored {(0,2),(0,3),(0,4)} = 2 into the
trivial {(0,4)} = 0; no later iteration resolves it except the recursive
call spawned by the self-comparison, whose entry settle marks (0,4) safe.
The spec-faithful variant that skips the self iteration returns with
(0,4) not marked safe — the two disagree, refuting the claim. -/
theorem c7_self_comparison_observable :
    ((check_and_add_sentence 40 c7st ⟨{(0, 0), (0, 1)}, 1⟩).map fun st =>
      decide (((0 : ℤ), (4 : ℤ)) ∈ st.safes)) = some true
    ∧ ((check_and_add_spec 40 c7st ⟨{(0, 0), (0, 1)}, 1⟩).map fun st =>
      decide (((0 : ℤ), (4 : ℤ)) ∈ st.safes)) = some false :=
  ⟨by decide, by decide⟩

/-- C7, amended: the stored constraint is resolved against every entry of
the active collection INCLUDING itself; the self-comparison always derives
the empty constraint with count 0 (first conjunct), which the recursive
call discards — but only after that call's entry settle pass, which can
still change the state (second conjunct: the self-comparison's settle is
what marks (0,4) safe in the c7st run). -/
theorem c7_amended_self_comparison :
    (∀ s : Sentence, subsetDiff s s = some ⟨∅, 0⟩)
    ∧ ((check_and_add_sentence 40 c7st ⟨{(0, 0), (0, 1)}, 1⟩).map fun st =>
        decide (((0 : ℤ), (4 : ℤ)) ∈ st.safes ∧ ((0 : ℤ), (2 : ℤ)) ∈ st.mines ∧
          ((0 : ℤ), (3 : ℤ)) ∈ st.mines)) = some true := by
  refine ⟨?_, by decide⟩
  intro s
  simp [subsetDiff]

/-- C8, counterexample: Sentence.__init__ performs no validation.  The
ill-formed pairs ({(0,0)}, 5) — count greater than the cell-set size — and
([], -1) — negative count — are silently constructed and stored as given,
so not every constructed sentence satisfies 0 ≤ count ≤ number of cells. -/
theorem c8_no_construction_validation :
    (Sentence.init [(0, 0)] 5).count = 5
    ∧ ((Sentence.init [(0, 0)] 5).cells.card : ℤ) < (Sentence.init [(0, 0)] 5).count
    ∧ (Sentence.init [] (-1)).count = -1 := by
  decide

/-- C8, amended: construction is silent — Sentence.__init__ stores the
(deduplicated) cell set and the count exactly as given, with no rejection
or clamping; well-formedness of the pair is a caller precondition. -/
theorem c8_amended_silent_construction (cs : List Cell) (k : ℤ) :
    (Sentence.init cs k).cells = cs.toFinset ∧ (Sentence.init cs k).count = k :=
  ⟨rfl, rfl⟩

/-- C10, counterexample: on the vacuous sentence (∅, 0), known_mines takes
the `len(cells) == count` branch (0 = 0) and returns the empty set — a
(trivial) mine set — rather than reporting no known mines. -/
theorem c10_vacuous_sentence_reports_mines :
    Sentence.known_mines ⟨(∅ : Finset Cell), 0⟩ = some ∅ := by
  decide

/-- C10, amended: known_mines returns the cell set exactly when the
cell-set size equals the count — with no positivity side-condition, so the
vacuous sentence (∅, 0) also returns its (empty) cell set — and reports
none otherwise. -/
theorem c10_amended_known_mines (s : Sentence) :
    (s.known_mines = some s.cells ↔ (s.cells.card : ℤ) = s.count)
    ∧ (s.known_mines = none ↔ (s.cells.card : ℤ) ≠ s.count) := by
  by_cases h : (s.cells.card : ℤ) = s.count <;>
    simp [Sentence.known_mines, h]

/-- stateLe is reflexive. -/
theorem stateLe_refl (s : AIState) : stateLe s s :=
  ⟨Finset.Subset.refl _, Finset.Subset.refl _, Finset.Subset.refl _⟩

/-- stateLe is transitive. -/
theorem stateLe_trans {a b c : AIState} (h₁ : stateLe a b) (h₂ : stateLe b c) :
    stateLe a c :=
  ⟨h₁.1.trans h₂.1, h₁.2.1.trans h₂.2.1, h₁.2.2.trans h₂.2.2⟩

/-- Replacing the knowledge list leaves the three sets unchanged. -/
theorem stateLe_set_knowledge (st : AIState) (kn : List ℕ) :
    stateLe st { st with knowledge := kn } :=
  ⟨Finset.Subset.refl _, Finset.Subset.refl _, Finset.Subset.refl _⟩

/-- Appending to the heap and knowledge list leaves the three sets
unchanged. -/
theorem stateLe_append (st : AIState) (p : SObj) (i : ℕ) :
    stateLe st { st with heap := st.heap ++ [p], knowledge := st.knowledge ++ [i] } :=
  ⟨Finset.Subset.refl _, Finset.Subset.refl _, Finset.Subset.refl _⟩

/-- mark_mine only inserts into `mines`. -/
theorem mark_mine_le (st : AIState) (c : Cell) : stateLe st (st.mark_mine c) :=
  ⟨Finset.subset_insert _ _, Finset.Subset.refl _, Finset.Subset.refl _⟩

/-- mark_safe only inserts into `safes`. -/
theorem mark_safe_le (st : AIState) (c : Cell) : stateLe st (st.mark_safe c) :=
  ⟨Finset.Subset.refl _, Finset.subset_insert _ _, Finset.Subset.refl _⟩

/-- Folding mark_mine over any cell list only grows the sets. -/
theorem foldl_mark_mine_le (l : List Cell) (st : AIState) :
    stateLe st (l.foldl AIState.mark_mine st) := by
  induction l generalizing st with
  | nil => exact stateLe_refl st
  | cons c t ih =>
    exact stateLe_trans (mark_mine_le st c) (ih (st.mark_mine c))

/-- Folding mark_safe over any cell list only grows the sets. -/
theorem foldl_mark_safe_le (l : List Cell) (st : AIState) :
    stateLe st (l.foldl AIState.mark_safe st) := by
  induction l generalizing st with
  | nil => exact stateLe_refl st
  | cons c t ih =>
    exact stateLe_trans (mark_safe_le st c) (ih (st.mark_safe c))

/-- markCellsMine only grows the sets. -/
theorem markCellsMine_le (st : AIState) (cs : Finset Cell) :
    stateLe st (markCellsMine st cs) :=
  foldl_mark_mine_le (sortCells cs) st

/-- markCellsSafe only grows the sets. -/
theorem markCellsSafe_le (st : AIState) (cs : Finset Cell) :
    stateLe st (markCellsSafe st cs) :=
  foldl_mark_safe_le (sortCells cs) st

/-- check_knowledge only grows the sets. -/
theorem check_knowledge_le :
    ∀ fuel st st', check_knowledge fuel st = some st' → stateLe st st' := by
  intro fuel
  induction fuel with
  | zero =>
    intro st st' h
    simp [check_knowledge] at h
  | succ f ih =>
    intro st st' h
    rw [check_knowledge] at h
    cases hp : check_pass st (st.knowledge.length + 1) 0 st.knowledge false ∅ ∅ with
    | none => rw [hp] at h; cases h
    | some r =>
      rw [hp] at h
      obtain ⟨kn, upd, ms, ss⟩ := r
      dsimp only at h
      by_cases hu : upd = true
      · rw [if_pos hu] at h
        refine stateLe_trans (stateLe_set_knowledge st kn) ?_
        refine stateLe_trans (markCellsMine_le _ ms) ?_
        refine stateLe_trans (markCellsSafe_le _ ss) ?_
        exact ih _ _ h
      · rw [if_neg hu] at h
        injection h with h'
        rw [← h']
        exact stateLe_set_knowledge st kn

/-- check_and_add_sentence and its resolution loop only grow the sets. -/
theorem caas_resolve_le :
    ∀ fuel,
      (∀ st s st', check_and_add_sentence fuel st s = some st' → stateLe st st')
      ∧ (∀ i st sid st', resolve_loop fuel i st sid = some st' → stateLe st st') := by
  intro fuel
  induction fuel with
  | zero =>
    constructor
    · intro st s st' h
      simp [check_and_add_sentence] at h
    · intro i st sid st' h
      simp [resolve_loop] at h
  | succ f ih =>
    obtain ⟨ih₁, ih₂⟩ := ih
    constructor
    · intro st s st' h
      rw [check_and_add_sentence] at h
      cases hk : check_knowledge (f + 1) st with
      | none => rw [hk] at h; cases h
      | some st₁ =>
        rw [hk] at h
        dsimp only at h
        have h₀ : stateLe st st₁ := check_knowledge_le (f + 1) st st₁ hk
        by_cases hmem : s ∈ knowledgeVals st₁
        · rw [if_pos hmem] at h
          injection h with h'
          rw [← h']
          exact h₀
        · rw [if_neg hmem] at h
          by_cases hemp : s.cells = ∅
          · rw [if_pos hemp] at h
            injection h with h'
            rw [← h']
            exact h₀
          · rw [if_neg hemp] at h
            cases hkm : s.known_mines with
            | some cs =>
              rw [hkm] at h
              dsimp only at h
              injection h with h'
              rw [← h']
              exact stateLe_trans h₀ (markCellsMine_le st₁ cs)
            | none =>
              rw [hkm] at h
              dsimp only at h
              cases hks : s.known_safes with
              | some cs =>
                rw [hks] at h
                dsimp only at h
                injection h with h'
                rw [← h']
                exact stateLe_trans h₀ (markCellsSafe_le st₁ cs)
              | none =>
                rw [hks] at h
                dsimp only at h
                refine stateLe_trans h₀ ?_
                refine stateLe_trans
                  (stateLe_append st₁ ⟨st₁.heap.length, s⟩ st₁.heap.length) ?_
                exact ih₂ 0 _ st₁.heap.length st' h
    · intro i st sid st' h
      rw [resolve_loop] at h
      by_cases hib : i < st.knowledge.length
      · rw [dif_pos hib] at h
        dsimp only at h
        by_cases hemp : (heapVal st (st.knowledge.get ⟨i, hib⟩)).cells = ∅
        · rw [if_pos hemp] at h
          refine stateLe_trans
            (stateLe_set_knowledge st
              (removeFirstVal st st.knowledge
                (heapVal st (st.knowledge.get ⟨i, hib⟩)))) ?_
          exact ih₂ (i + 1) _ sid st' h
        · rw [if_neg hemp] at h
          cases hd : subsetDiff (heapVal st sid) (heapVal st (st.knowledge.get ⟨i, hib⟩)) with
          | some d =>
            rw [hd] at h
            dsimp only at h
            cases hc : check_and_add_sentence f st d with
            | none => rw [hc] at h; cases h
            | some stm =>
              rw [hc] at h
              dsimp only at h
              exact stateLe_trans (ih₁ st d stm hc) (ih₂ (i + 1) stm sid st' h)
          | none =>
            rw [hd] at h
            dsimp only at h
            exact ih₂ (i + 1) st sid st' h
      · rw [dif_neg hib] at h
        injection h with h'
        rw [← h']
        exact stateLe_refl st

/-- add_knowledge only grows the sets. -/
theorem add_knowledge_le (fuel : ℕ) (st : AIState) (c : Cell) (n : ℤ)
    (st' : AIState) (h : add_knowledge fuel st c n = some st') :
    stateLe st st' := by
  refine stateLe_trans (b := { st with moves_made := insert c st.moves_made,
                                       safes := insert c st.safes }) ?_ ?_
  · exact ⟨Finset.Subset.refl _, Finset.subset_insert _ _, Finset.subset_insert _ _⟩
  · exact (caas_resolve_le fuel).1 _ _ st' h

/-- C9: monotonicity.  Across every knowledge-base operation — mark_mine,
mark_safe, the settle pass check_knowledge, check_and_add_sentence
(add_constraint) and add_knowledge (record_observation) — the sets
`mines`, `safes` and `moves_made` of the post-state contain those of the
pre-state; no operation removes a cell from any of them (the read-only
queries make_safe_move / make_random_move take no part in the state). -/
theorem c9_monotone_sets :
    (∀ st c, stateLe st (AIState.mark_mine st c))
    ∧ (∀ st c, stateLe st (AIState.mark_safe st c))
    ∧ (∀ fuel st st', check_knowledge fuel st = some st' → stateLe st st')
    ∧ (∀ fuel st s st', check_and_add_sentence fuel st s = some st' → stateLe st st')
    ∧ (∀ fuel st c n st', add_knowledge fuel st c n = some st' → stateLe st st') :=
  ⟨mark_mine_le, mark_safe_le, check_knowledge_le,
   fun fuel => (caas_resolve_le fuel).1, add_knowledge_le⟩

/-- Witness for C9: each operation applied at a concrete state, with the
hypotheses discharged by evaluation. -/
theorem c9_monotone_sets_witness :
    stateLe (initAI 2 2) (AIState.mark_mine (initAI 2 2) (0, 0))
    ∧ stateLe (initAI 2 2) (AIState.mark_safe (initAI 2 2) (0, 0))
    ∧ stateLe cdupst cdupst
    ∧ stateLe (initAI 2 2) (initAI 2 2)
    ∧ stateLe (initAI 1 1) ⟨1, 1, {(0, 0)}, ∅, {(0, 0)}, [], []⟩ :=
  ⟨c9_monotone_sets.1 (initAI 2 2) (0, 0),
   c9_monotone_sets.2.1 (initAI 2 2) (0, 0),
   c9_monotone_sets.2.2.1 1 cdupst cdupst (by decide),
   c9_monotone_sets.2.2.2.1 1 (initAI 2 2) ⟨∅, 0⟩ (initAI 2 2) (by decide),
   c9_monotone_sets.2.2.2.2 5 (initAI 1 1) (0, 0) 0
     ⟨1, 1, {(0, 0)}, ∅, {(0, 0)}, [], []⟩ (by decide)⟩


theorem vseq_even_eq (j : ℕ) (h0 : j ≠ 0) (h1 : j ≠ 1) (h2 : j % 2 = 0) :
    vseq j = ⟨cellsB, 3 - (j : ℤ)⟩ := by
  unfold vseq
  rw [if_neg h0, if_neg h1, if_pos h2]

theorem vseq_odd_eq (j : ℕ) (h0 : j ≠ 0) (h1 : j ≠ 1) (h2 : j % 2 = 1) :
    vseq j = ⟨cellsC, (j : ℤ) - 1⟩ := by
  unfold vseq
  rw [if_neg h0, if_neg h1, if_neg (by omega)]

theorem known_mines_none (cs : Finset Cell) (k : ℤ) (h : (cs.card : ℤ) ≠ k) :
    Sentence.known_mines ⟨cs, k⟩ = none := by
  unfold Sentence.known_mines
  exact if_neg h

theorem known_safes_none (cs : Finset Cell) (k : ℤ) (h : k ≠ 0) :
    Sentence.known_safes ⟨cs, k⟩ = none := by
  unfold Sentence.known_safes
  exact if_neg h

theorem vseq_nontriv (j : ℕ) :
    (vseq j).cells ≠ ∅ ∧ (vseq j).known_mines = none ∧
      (vseq j).known_safes = none := by
  have hB : (cellsB.card : ℤ) = 3 := by decide
  have hC : (cellsC.card : ℤ) = 1 := by decide
  unfold vseq
  split_ifs with h0 h1 h2
  · exact ⟨by decide, by decide, by decide⟩
  · exact ⟨by decide, by decide, by decide⟩
  · refine ⟨?_, ?_, ?_⟩
    · show cellsB ≠ ∅
      decide
    · exact known_mines_none cellsB _ (by rw [hB]; omega)
    · exact known_safes_none cellsB _ (by omega)
  · refine ⟨?_, ?_, ?_⟩
    · show cellsC ≠ ∅
      decide
    · exact known_mines_none cellsC _ (by rw [hC]; omega)
    · exact known_safes_none cellsC _ (by omega)

theorem c5heap_succ (n : ℕ) : c5heap (n + 1) = c5heap n ++ [⟨n, vseq n⟩] := by
  unfold c5heap
  rw [List.range_succ n, List.map_append]
  rfl

theorem c5heap_find? :
    ∀ n j, j < n →
      (c5heap n).find? (fun p => p.sid == j) = some ⟨j, vseq j⟩ := by
  intro n
  induction n with
  | zero => intro j h; omega
  | succ n ih =>
    intro j h
    rw [c5heap_succ n, List.find?_append]
    by_cases hj : j < n
    · rw [ih j hj]
      rfl
    · have hjn : j = n := by omega
      subst hjn
      have hnone : (c5heap j).find? (fun p => p.sid == j) = none := by
        apply List.find?_eq_none.mpr
        intro p hp
        unfold c5heap at hp
        rw [List.mem_map] at hp
        obtain ⟨i, hi, rfl⟩ := hp
        rw [List.mem_range] at hi
        simp only [beq_iff_eq]
        omega
      rw [hnone]
      simp [List.find?]

theorem c5st_heapVal (n j : ℕ) (h : j < n) : heapVal (c5st n) j = vseq j := by
  unfold heapVal
  have hh : (c5st n).heap = c5heap n := rfl
  rw [hh, c5heap_find? n j h]

theorem c5st_heap_length (n : ℕ) : (c5st n).heap.length = n := by
  show (c5heap n).length = n
  unfold c5heap
  rw [List.length_map, List.length_range]

theorem c5st_knowledge_eq (n : ℕ) : (c5st n).knowledge = List.range n := rfl

theorem c5st_knowledge_length (n : ℕ) : (c5st n).knowledge.length = n := by
  show (List.range n).length = n
  rw [List.length_range]

theorem c5st_knowledgeVals (n : ℕ) :
    knowledgeVals (c5st n) = (List.range n).map vseq := by
  unfold knowledgeVals
  refine List.map_congr_left ?_
  intro j hj
  exact c5st_heapVal n j (List.mem_range.mp hj)

theorem check_pass_noop (st : AIState) :
    ∀ f i kn (ms ss : Finset Cell),
      (∀ j ∈ kn, (heapVal st j).cells ≠ ∅ ∧ (heapVal st j).known_mines = none ∧
        (heapVal st j).known_safes = none) →
      kn.length - i < f →
      check_pass st f i kn false ms ss = some (kn, false, ms, ss) := by
  intro f
  induction f with
  | zero => intro i kn ms ss h hf; omega
  | succ f ih =>
    intro i kn ms ss h hf
    rw [check_pass]
    by_cases hi : i < kn.length
    · rw [dif_pos hi]
      have hm : kn.get ⟨i, hi⟩ ∈ kn := List.get_mem kn i hi
      obtain ⟨he, hkm, hks⟩ := h _ hm
      rw [if_neg he]
      dsimp only
      rw [hkm]
      dsimp only
      rw [hks]
      dsimp only
      exact ih (i + 1) kn ms ss h (by omega)
    · rw [dif_neg hi]

theorem check_knowledge_noop (st : AIState)
    (h : ∀ j ∈ st.knowledge, (heapVal st j).cells ≠ ∅ ∧
      (heapVal st j).known_mines = none ∧ (heapVal st j).known_safes = none)
    (g : ℕ) :
    check_knowledge (g + 1) st = some st := by
  rw [check_knowledge]
  rw [check_pass_noop st (st.knowledge.length + 1) 0 st.knowledge ∅ ∅ h (by omega)]
  dsimp only
  rfl

theorem c5st_settle (n g : ℕ) : check_knowledge (g + 1) (c5st n) = some (c5st n) := by
  apply check_knowledge_noop
  intro j hj
  have hjn : j < n := List.mem_range.mp hj
  rw [c5st_heapVal n j hjn]
  exact vseq_nontriv j

theorem vseq_even_not_mem (m : ℕ) :
    vseq (2 * m + 2) ∉ (List.range (2 * m + 2)).map vseq := by
  intro h
  rw [List.mem_map] at h
  obtain ⟨j, hj, heq⟩ := h
  rw [List.mem_range] at hj
  rw [vseq_even_eq (2 * m + 2) (by omega) (by omega) (by omega)] at heq
  unfold vseq at heq
  split_ifs at heq with h0 h1 h2
  · rw [Sentence.mk.injEq] at heq
    exact absurd heq.1 (by decide)
  · rw [Sentence.mk.injEq] at heq
    exact absurd heq.1 (by decide)
  · rw [Sentence.mk.injEq] at heq
    have := heq.2
    omega
  · rw [Sentence.mk.injEq] at heq
    exact absurd heq.1 (by decide)

theorem vseq_odd_not_mem (m : ℕ) :
    vseq (2 * m + 3) ∉ (List.range (2 * m + 3)).map vseq := by
  intro h
  rw [List.mem_map] at h
  obtain ⟨j, hj, heq⟩ := h
  rw [List.mem_range] at hj
  rw [vseq_odd_eq (2 * m + 3) (by omega) (by omega) (by omega)] at heq
  unfold vseq at heq
  split_ifs at heq with h0 h1 h2
  · rw [Sentence.mk.injEq] at heq
    exact absurd heq.1 (by decide)
  · rw [Sentence.mk.injEq] at heq
    exact absurd heq.1 (by decide)
  · rw [Sentence.mk.injEq] at heq
    exact absurd heq.1 (by decide)
  · rw [Sentence.mk.injEq] at heq
    have := heq.2
    omega

theorem c5_diff₁ (m : ℕ) :
    subsetDiff (vseq (2 * m + 2)) ⟨cellsA, 3⟩ = some (vseq (2 * m + 3)) := by
  rw [vseq_even_eq (2 * m + 2) (by omega) (by omega) (by omega),
      vseq_odd_eq (2 * m + 3) (by omega) (by omega) (by omega)]
  unfold subsetDiff
  rw [if_neg (by decide : ¬(cellsA ⊆ cellsB))]
  rw [if_pos (by decide : cellsB ⊆ cellsA)]
  have hd : cellsA \ cellsB = cellsC := by decide
  simp only [hd]
  congr 1
  rw [Sentence.mk.injEq]
  refine ⟨rfl, ?_⟩
  push_cast
  ring

theorem c5_diff₂ (m : ℕ) :
    subsetDiff (vseq (2 * m + 3)) ⟨cellsA, 3⟩ = some (vseq (2 * m + 2)) := by
  rw [vseq_odd_eq (2 * m + 3) (by omega) (by omega) (by omega),
      vseq_even_eq (2 * m + 2) (by omega) (by omega) (by omega)]
  unfold subsetDiff
  rw [if_neg (by decide : ¬(cellsA ⊆ cellsC))]
  rw [if_pos (by decide : cellsC ⊆ cellsA)]
  have hd : cellsA \ cellsC = cellsB := by decide
  simp only [hd]
  congr 1
  rw [Sentence.mk.injEq]
  refine ⟨rfl, ?_⟩
  push_cast
  ring

theorem c5_diff₃ (m : ℕ) :
    subsetDiff (vseq (2 * m + 3)) ⟨cellsA, 1⟩ = some (vseq (2 * m + 4)) := by
  rw [vseq_odd_eq (2 * m + 3) (by omega) (by omega) (by omega),
      vseq_even_eq (2 * m + 4) (by omega) (by omega) (by omega)]
  unfold subsetDiff
  rw [if_neg (by decide : ¬(cellsA ⊆ cellsC))]
  rw [if_pos (by decide : cellsC ⊆ cellsA)]
  have hd : cellsA \ cellsC = cellsB := by decide
  simp only [hd]
  congr 1
  rw [Sentence.mk.injEq]
  refine ⟨rfl, ?_⟩
  push_cast
  ring

theorem c5st_push (n : ℕ) :
    { c5st n with heap := (c5st n).heap ++ [⟨(c5st n).heap.length, vseq n⟩],
                  knowledge := (c5st n).knowledge ++ [(c5st n).heap.length] } =
      c5st (n + 1) := by
  rw [c5st_heap_length n]
  have h1 : (c5st n).heap ++ [(⟨n, vseq n⟩ : SObj)] = c5heap (n + 1) :=
    (c5heap_succ n).symm
  have h2 : (c5st n).knowledge ++ [n] = List.range (n + 1) :=
    (List.range_succ n).symm
  rw [h1, h2]
  rfl

theorem c5_dup_mem (m : ℕ) :
    vseq (2 * m + 2) ∈ knowledgeVals (c5st (2 * m + 4)) := by
  rw [c5st_knowledgeVals]
  rw [List.mem_map]
  exact ⟨2 * m + 2, List.mem_range.mpr (by omega), rfl⟩

theorem c5_dup_call (m l : ℕ) :
    check_and_add_sentence (l + 1) (c5st (2 * m + 4)) (vseq (2 * m + 2)) =
      some (c5st (2 * m + 4)) := by
  rw [check_and_add_sentence, c5st_settle]
  dsimp only
  rw [if_pos (c5_dup_mem m)]

theorem vseq_zero : vseq 0 = ⟨cellsA, 3⟩ := rfl

theorem vseq_one : vseq 1 = ⟨cellsA, 1⟩ := rfl

theorem c5st_get (n i : ℕ) (h : i < (c5st n).knowledge.length) :
    (c5st n).knowledge.get ⟨i, h⟩ = i :=
  List.get_range i h

theorem c5_step :
    ∀ F m, check_and_add_sentence F (c5st (2 * m + 2)) (vseq (2 * m + 2)) = none := by
  intro F
  induction F using Nat.strong_induction_on with
  | _ F IH =>
    intro m
    obtain _ | f := F
    · rfl
    rw [check_and_add_sentence, c5st_settle]
    dsimp only
    rw [if_neg (by rw [c5st_knowledgeVals]; exact vseq_even_not_mem m)]
    rw [if_neg (vseq_nontriv (2 * m + 2)).1]
    rw [(vseq_nontriv (2 * m + 2)).2.1]
    dsimp only
    rw [(vseq_nontriv (2 * m + 2)).2.2]
    dsimp only
    rw [c5st_push (2 * m + 2), c5st_heap_length (2 * m + 2)]
    obtain _ | g := f
    · rfl
    rw [resolve_loop]
    rw [dif_pos (by rw [c5st_knowledge_length]; omega)]
    rw [c5st_get]
    rw [c5st_heapVal (2 * m + 3) 0 (by omega)]
    rw [vseq_zero]
    rw [if_neg (by decide : ¬((⟨cellsA, 3⟩ : Sentence).cells = ∅))]
    rw [c5st_heapVal (2 * m + 3) (2 * m + 2) (by omega)]
    rw [c5_diff₁ m]
    dsimp only
    have hmid : check_and_add_sentence g (c5st (2 * m + 3)) (vseq (2 * m + 3)) = none := by
      obtain _ | h := g
      · rfl
      rw [check_and_add_sentence, c5st_settle]
      dsimp only
      rw [if_neg (by rw [c5st_knowledgeVals]; exact vseq_odd_not_mem m)]
      rw [if_neg (vseq_nontriv (2 * m + 3)).1]
      rw [(vseq_nontriv (2 * m + 3)).2.1]
      dsimp only
      rw [(vseq_nontriv (2 * m + 3)).2.2]
      dsimp only
      rw [c5st_push (2 * m + 3), c5st_heap_length (2 * m + 3)]
      obtain _ | k := h
      · rfl
      rw [resolve_loop]
      rw [dif_pos (by rw [c5st_knowledge_length]; omega)]
      rw [c5st_get]
      rw [c5st_heapVal (2 * m + 4) 0 (by omega)]
      rw [vseq_zero]
      rw [if_neg (by decide : ¬((⟨cellsA, 3⟩ : Sentence).cells = ∅))]
      rw [c5st_heapVal (2 * m + 4) (2 * m + 3) (by omega)]
      rw [c5_diff₂ m]
      dsimp only
      obtain _ | l := k
      · rfl
      rw [c5_dup_call m l]
      dsimp only
      rw [resolve_loop]
      rw [dif_pos (by rw [c5st_knowledge_length]; omega)]
      rw [c5st_get]
      rw [c5st_heapVal (2 * m + 4) 1 (by omega)]
      rw [vseq_one]
      rw [if_neg (by decide : ¬((⟨cellsA, 1⟩ : Sentence).cells = ∅))]
      rw [c5st_heapVal (2 * m + 4) (2 * m + 3) (by omega)]
      rw [c5_diff₃ m]
      dsimp only
      have hnext : check_and_add_sentence l (c5st (2 * m + 4)) (vseq (2 * m + 4)) = none := by
        have h24 : 2 * m + 4 = 2 * (m + 1) + 2 := by ring
        rw [h24]
        exact IH l (by omega) (m + 1)
      rw [hnext]
    rw [hmid]

/-- C5: termination fails.  The initial knowledge base c5st 2 holds the
two constraints cellsA = 3 and cellsA = 1 — each well-formed
(0 ≤ count ≤ number of cells, first two conjuncts) though mutually
contradictory — and the candidate vseq 2 = (cellsB, 1) is well-formed as
well; yet check_and_add_sentence never returns on it, at any fuel: the
resolution keeps deriving (cellsC, 2m+2) and (cellsB, 1-2m) for every m,
appending forever (a run of the Python source ends in a RecursionError). -/
theorem c5_resolution_diverges :
    ((knowledgeVals (c5st 2)).all fun s =>
        decide (0 ≤ s.count ∧ s.count ≤ (s.cells.card : ℤ))) = true
    ∧ (0 ≤ (vseq 2).count ∧ (vseq 2).count ≤ ((vseq 2).cells.card : ℤ))
    ∧ ∀ fuel, check_and_add_sentence fuel (c5st 2) (vseq 2) = none := by
  refine ⟨by decide, by decide, ?_⟩
  intro fuel
  exact c5_step fuel 0
